import Mathlib

/-!
Verification of the test-orchestration harness of `mcp-server-excel`:
a shallow embedding of the CLI daemon supervisor fixture
(`llm-tests/cli/conftest.py`, fixture `cli_daemon`), the transcript
parser and outcome validators (`llm-tests/conftest.py`,
`_parse_cli_results`, `assert_cli_exit_codes`, `assert_cli_args_contain`),
and the sequential multi-turn scenario structure
(`llm-tests/cli/test_cli_sales_report_workflow.py`).

Python exceptions are modelled explicitly: a modelled operation returns a
value describing either normal completion or the exception that the
corresponding Python call raised.  The environment (which exceptions the
external subprocess calls raise, what the status probes observe) is a
parameter of each definition, so theorems quantify over all behaviours of
the supervised process.
-/

namespace ExcelMcpHarness

/-- Kinds of exception that the `subprocess` calls in the daemon fixture can
raise: `subprocess.TimeoutExpired`, `OSError`, or any other exception kind
(not raised by these call sites in practice, kept so that the
`except (subprocess.TimeoutExpired, OSError)` clauses are modelled as
catching exactly the two kinds they name). -/
inductive PyErr
| timeoutExpired
| osError
| otherErr
deriving DecidableEq, Repr

/-- Which exception kinds the `except (subprocess.TimeoutExpired, OSError)`
clauses of `cli_daemon` catch. -/
def isCaught : PyErr → Bool
| .timeoutExpired => true
| .osError => true
| .otherErr => false

/-- Character-list prefix test (needle, haystack). -/
def isPrefixChars : List Char → List Char → Bool
| [], _ => true
| _ :: _, [] => false
| c :: cs, d :: ds => c == d && isPrefixChars cs ds

/-- Character-list substring test (needle, haystack). -/
def isInfixChars : List Char → List Char → Bool
| needle, [] => needle.isEmpty
| needle, d :: ds => isPrefixChars needle (d :: ds) || isInfixChars needle ds

/-- Python's string containment operator `needle in hay` (an empty needle is
contained in every string, as in Python). -/
def pyIn (needle hay : String) : Bool := isInfixChars needle.data hay.data

/-! ## Daemon startup: the readiness polling loop of `cli_daemon`

The fixture runs, for `i in range(20)`: a status probe
`subprocess.run([exe, "-q", "service", "status"], ..., timeout=5)`; if the
probe completes with return code `0` and `'"running":true'` occurs in its
stdout, it breaks out of the loop; a `TimeoutExpired`/`OSError` from the
probe is swallowed; otherwise it sleeps `0.5` seconds and retries.  If the
loop exhausts all 20 attempts it kills the daemon process and raises
`RuntimeError("CLI daemon did not start within 10 seconds")`. -/

/-- Outcome of one status probe: the probe subprocess completes with a
return code and captured stdout, or the `subprocess.run` call raises. -/
inductive ProbeOutcome
| completes (returncode : Int) (stdout : String)
| raises (e : PyErr)
deriving DecidableEq, Repr

/-- The ready marker the fixture searches for in the probe's stdout
(source: `'"running":true' in result.stdout`). -/
def readyMarker : String := "\"running\":true"

/-- Whether a probe observation satisfies the fixture's ready condition
(source: `result.returncode == 0 and '"running":true' in result.stdout`);
a probe that raised satisfies nothing. -/
def probeReady : ProbeOutcome → Bool
| .completes rc out => rc == 0 && pyIn readyMarker out
| .raises _ => false

/-- Whether a probe outcome is an exception NOT caught by the fixture's
`except (subprocess.TimeoutExpired, OSError)` clause. -/
def probeUncaughtRaise : ProbeOutcome → Bool
| .completes _ _ => false
| .raises e => !(isCaught e)

/-- How the startup phase of `cli_daemon` ends. -/
inductive StartupOutcome
| ready
| startupTimeout (procKilled : Bool) (msg : String)
| uncaught (e : PyErr)
deriving DecidableEq, Repr

/-- Trace of one run of the startup polling loop: how many status probes
were performed, how many `time.sleep(0.5)` poll-interval sleeps were
performed, and how the loop ended. -/
structure StartupRun where
  probes : Nat
  sleeps : Nat
  outcome : StartupOutcome
deriving DecidableEq, Repr

/-- The message of the `RuntimeError` raised when the 20 attempts are
exhausted (source line: `raise RuntimeError("CLI daemon did not start
within 10 seconds")`). -/
def startupTimeoutMessage : String := "CLI daemon did not start within 10 seconds"

/-- The polling loop of `cli_daemon`, processing attempts `i, i+1, ...`
with `fuel` attempts remaining.  On a ready observation it breaks
immediately (no sleep); on a caught probe exception or a not-ready
observation it sleeps the poll interval and retries; when the budget is
exhausted (`for`/`else`) it kills the daemon process and raises. -/
def awaitReadyAux (probe : Nat → ProbeOutcome) : Nat → Nat → StartupRun
| _, 0 => ⟨0, 0, .startupTimeout true startupTimeoutMessage⟩
| i, fuel + 1 =>
  match probe i with
  | .raises e =>
    if isCaught e then
      let r := awaitReadyAux probe (i + 1) fuel
      ⟨r.probes + 1, r.sleeps + 1, r.outcome⟩
    else ⟨1, 0, .uncaught e⟩
  | .completes rc out =>
    if rc == 0 && pyIn readyMarker out then ⟨1, 0, .ready⟩
    else
      let r := awaitReadyAux probe (i + 1) fuel
      ⟨r.probes + 1, r.sleeps + 1, r.outcome⟩

/-- The startup phase of the `cli_daemon` fixture: 20 probe attempts
starting at attempt 0 (source: `for i in range(20)`). -/
def cli_daemon_await_ready (probe : Nat → ProbeOutcome) : StartupRun :=
  awaitReadyAux probe 0 20

/-! ## Daemon teardown: the post-`yield` phase of `cli_daemon`

Source:
a `try` block invoking `subprocess.run([exe, "-q", "service", "stop"],
capture_output=True, timeout=5)` followed by `proc.wait(timeout=10)`;
`except (subprocess.TimeoutExpired, OSError)` then runs `proc.kill()`
followed by `proc.wait(timeout=5)`. -/

/-- Environment for one teardown run: which exception (if any) each of the
four external calls would raise when reached.  `none` means the call
completes normally. -/
structure TeardownEnv where
  runStop : Option PyErr
  waitAfterStop : Option PyErr
  kill : Option PyErr
  waitAfterKill : Option PyErr
deriving DecidableEq, Repr

/-- Result of the teardown phase: completion, or propagation of an
uncaught exception. -/
inductive TeardownOutcome
| completed
| raised (e : PyErr)
deriving DecidableEq, Repr

/-- Whether an optional exception is absent or of a caught kind. -/
def optCaught : Option PyErr → Bool
| none => true
| some e => isCaught e

/-- The `except` handler of the teardown: `proc.kill()` then
`proc.wait(timeout=5)`; exceptions raised here are not caught by
anything and propagate. -/
def teardownKillPath (env : TeardownEnv) : TeardownOutcome :=
  match env.kill with
  | some e => .raised e
  | none =>
    match env.waitAfterKill with
    | some e => .raised e
    | none => .completed

/-- The teardown phase of `cli_daemon` (everything after `yield proc`).
Returns the outcome together with whether `proc.kill()` was attempted. -/
def cli_daemon_teardown (env : TeardownEnv) : TeardownOutcome × Bool :=
  match env.runStop with
  | some e => if isCaught e then (teardownKillPath env, true) else (.raised e, false)
  | none =>
    match env.waitAfterStop with
    | some e => if isCaught e then (teardownKillPath env, true) else (.raised e, false)
    | none => (.completed, false)

/-! ## JSON decoding: the model of `json.loads`

`_parse_cli_results` decodes each tool call's raw result string with
`json.loads`.  The model below implements the JSON grammar that
`json.loads` accepts: values are `null`, `true`/`false`, numbers, strings
with the standard escapes, arrays and objects; a document must be exactly
one value surrounded by optional whitespace.  Integral numbers decode to
`jint`; numbers with a fraction or exponent, and the `NaN`/`Infinity`
constants Python accepts, decode to `jfloat` carrying their lexeme (no
claim compares float values, only whether one equals `0`).  Divergences
from CPython confined to inputs no claim exercises: lone `\u` surrogate
escapes are mapped to the replacement character instead of a surrogate
code unit. -/

/-- A decoded JSON value as produced by `json.loads`. -/
inductive JValue
| jnull
| jbool (b : Bool)
| jint (n : Int)
| jfloat (lexeme : String)
| jstr (s : String)
| jarr (elems : List JValue)
| jobj (fields : List (String × JValue))

/-- JSON insignificant whitespace (space, tab, newline, carriage return). -/
def isJsonWs (c : Char) : Bool := c == ' ' || c == '\t' || c == '\n' || c == '\r'

/-- Drop leading JSON whitespace. -/
def skipWs : List Char → List Char
| [] => []
| c :: cs => if isJsonWs c then skipWs cs else c :: cs

/-- Decimal digit test. -/
def isDigitChar (c : Char) : Bool := '0' ≤ c && c ≤ '9'

/-- Value of a hexadecimal digit, if the character is one; a position
lookup in the digit alphabet (case-insensitive, as in `json.loads`). -/
def hexVal (c : Char) : Option Nat :=
  List.findIdx? (fun d => d == c.toLower) "0123456789abcdef".data

/-- Split off the longest leading run of decimal digits. -/
def takeDigits : List Char → List Char × List Char
| [] => ([], [])
| c :: cs =>
  if isDigitChar c then
    let p := takeDigits cs
    (c :: p.1, p.2)
  else ([], c :: cs)

/-- Numeric value of a digit run. -/
def digitsToNat (ds : List Char) : Nat :=
  ds.foldl (fun a c => a * 10 + (c.toNat - '0'.toNat)) 0

/-- The single-character escape table of JSON strings: the character
following the backslash paired with the character it denotes. -/
def escTable : List (Char × Char) :=
  [('"', '"'), ('\\', '\\'), ('/', '/'), ('b', '\x08'), ('f', '\x0c'),
   ('n', '\n'), ('r', '\x0d'), ('t', '\t')]

/-- Look an escape character up in the table. -/
def escChar (e : Char) : Option Char :=
  (escTable.find? (fun p => p.1 == e)).map Prod.snd

/-- Body of a JSON string after its opening quote: collects characters
(processing the standard escapes) until the closing quote; rejects
unescaped control characters as `json.loads` does in strict mode. -/
def parseJStringAux : Nat → List Char → List Char → Option (String × List Char)
| 0, _, _ => none
| _ + 1, _, [] => none
| fuel + 1, acc, c :: cs =>
  if c == '"' then some (String.mk acc.reverse, cs)
  else if c == '\\' then
    match cs with
    | 'u' :: h1 :: h2 :: h3 :: h4 :: cs3 =>
      match hexVal h1, hexVal h2, hexVal h3, hexVal h4 with
      | some a, some b, some c2, some d =>
        parseJStringAux fuel (Char.ofNat (((a * 16 + b) * 16 + c2) * 16 + d) :: acc) cs3
      | _, _, _, _ => none
    | e :: cs2 =>
      match escChar e with
      | some c2 => parseJStringAux fuel (c2 :: acc) cs2
      | none => none
    | [] => none
  else if c.toNat < 32 then none
  else parseJStringAux fuel (c :: acc) cs

/-- Exponent part after the `e`/`E`: optional sign then one or more
digits; returns the consumed characters and the rest. -/
def parseJExponent (input : List Char) : Option (List Char × List Char) :=
  let sign : List Char × List Char :=
    match input with
    | '+' :: r => (['+'], r)
    | '-' :: r => (['-'], r)
    | r => ([], r)
  let ds := takeDigits sign.2
  if ds.1.isEmpty then none else some (sign.1 ++ ds.1, ds.2)

/-- A JSON number starting at the input head: grammar
`-? (0 | [1-9][0-9]*) (. [0-9]+)? ([eE][+-]? [0-9]+)?`, plus Python's
accepted constants `NaN`, `Infinity` and `-Infinity`.  Integral lexemes
give `jint`, the rest `jfloat`. -/
def parseJNumber (input : List Char) : Option (JValue × List Char) :=
  if isPrefixChars "NaN".data input then some (.jfloat "NaN", input.drop 3)
  else if isPrefixChars "Infinity".data input then some (.jfloat "Infinity", input.drop 8)
  else if isPrefixChars "-Infinity".data input then some (.jfloat "-Infinity", input.drop 9)
  else
  let sign : List Char × List Char :=
    match input with
    | '-' :: r => (['-'], r)
    | r => ([], r)
  let ip := takeDigits sign.2
  if ip.1.isEmpty then none
  else if ip.1.length > 1 && ip.1.headD '0' == '0' then none
  else
    match ip.2 with
    | '.' :: r =>
      let fp := takeDigits r
      if fp.1.isEmpty then none
      else
        match fp.2 with
        | e :: r2 =>
          if e == 'e' || e == 'E' then
            match parseJExponent r2 with
            | some (eds, rest) =>
              some (.jfloat (String.mk (sign.1 ++ ip.1 ++ '.' :: fp.1 ++ e :: eds)), rest)
            | none => none
          else some (.jfloat (String.mk (sign.1 ++ ip.1 ++ '.' :: fp.1)), e :: r2)
        | [] => some (.jfloat (String.mk (sign.1 ++ ip.1 ++ '.' :: fp.1)), [])
    | e :: r2 =>
      if e == 'e' || e == 'E' then
        match parseJExponent r2 with
        | some (eds, rest) =>
          some (.jfloat (String.mk (sign.1 ++ ip.1 ++ e :: eds)), rest)
        | none => none
      else
        let n : Int := Int.ofNat (digitsToNat ip.1)
        some (.jint (if sign.1.isEmpty then n else -n), e :: r2)
    | [] =>
      let n : Int := Int.ofNat (digitsToNat ip.1)
      some (.jint (if sign.1.isEmpty then n else -n), [])

mutual

/-- One JSON value starting at the (whitespace-stripped) input head. -/
def parseJValueFuel : Nat → List Char → Option (JValue × List Char)
| 0, _ => none
| fuel + 1, input =>
  match skipWs input with
  | [] => none
  | c :: cs =>
    if c == '"' then
      match parseJStringAux (cs.length + 1) [] cs with
      | some (s, rest) => some (.jstr s, rest)
      | none => none
    else if c == '\x7b' then
      match skipWs cs with
      | '\x7d' :: rest => some (.jobj [], rest)
      | cs2 => parseJMembers fuel cs2 []
    else if c == '[' then
      match skipWs cs with
      | ']' :: rest => some (.jarr [], rest)
      | cs2 => parseJItems fuel cs2 []
    else if isPrefixChars "true".data (c :: cs) then some (.jbool true, (c :: cs).drop 4)
    else if isPrefixChars "false".data (c :: cs) then some (.jbool false, (c :: cs).drop 5)
    else if isPrefixChars "null".data (c :: cs) then some (.jnull, (c :: cs).drop 4)
    else parseJNumber (c :: cs)

/-- Object members after the opening brace (first member expected at the
input head, whitespace already stripped): `"key" : value` pairs separated
by commas, closed by the closing brace. -/
def parseJMembers : Nat → List Char → List (String × JValue) → Option (JValue × List Char)
| 0, _, _ => none
| fuel + 1, input, acc =>
  match input with
  | '"' :: cs =>
    match parseJStringAux (cs.length + 1) [] cs with
    | some (key, rest) =>
      match skipWs rest with
      | ':' :: rest2 =>
        match parseJValueFuel fuel rest2 with
        | some (v, rest3) =>
          match skipWs rest3 with
          | ',' :: rest4 => parseJMembers fuel (skipWs rest4) (acc ++ [(key, v)])
          | '\x7d' :: rest4 => some (.jobj (acc ++ [(key, v)]), rest4)
          | _ => none
        | none => none
      | _ => none
    | none => none
  | _ => none

/-- Array items after the opening bracket (first item expected at the
input head): values separated by commas, closed by `]`. -/
def parseJItems : Nat → List Char → List JValue → Option (JValue × List Char)
| 0, _, _ => none
| fuel + 1, input, acc =>
  match parseJValueFuel fuel input with
  | some (v, rest) =>
    match skipWs rest with
    | ',' :: rest2 => parseJItems fuel rest2 (acc ++ [v])
    | ']' :: rest2 => some (.jarr (acc ++ [v]), rest2)
    | _ => none
  | none => none

end

/-- The model of `json.loads`: one JSON document, with leading and
trailing whitespace allowed and nothing else after the value (CPython
raises `JSONDecodeError` on trailing data).  `none` models a raised
`json.JSONDecodeError`. -/
def json_loads (s : String) : Option JValue :=
  match parseJValueFuel (4 * s.length + 8) s.data with
  | some (v, rest) => if (skipWs rest).isEmpty then some v else none
  | none => none

/-- Python `dict` lookup on the field list of a decoded JSON object: when
a key was repeated in the document the later value wins, as in the `dict`
that `json.loads` builds. -/
def jdictGet : List (String × JValue) → String → Option JValue
| [], _ => none
| kv :: rest, k =>
  match jdictGet rest k with
  | some v => some v
  | none => if kv.1 == k then some kv.2 else none

/-! ## Transcript parsing and outcome validators (`llm-tests/conftest.py`)

`_parse_cli_results(result)` iterates `result.tool_calls_for("excel_execute")`;
for each call with a truthy `call.result` it appends `json.loads(call.result)`,
or on `json.JSONDecodeError` the synthesized record
`{"exit_code": -1, "stdout": call.result, "stderr": ""}` (braces as in the
source).  Calls with a falsy result (empty string or `None`) append nothing. -/

/-- One observed tool call in an agent turn's transcript, as exposed by
the `pytest_aitest` result object: the tool name, the argument mapping
(string keys to string values — the `excel_execute` tool's `args` value
is the CLI invocation string), and the raw result payload (`none` models
Python `None`, `some ""` an empty string; both are falsy). -/
structure ToolCall where
  name : String
  arguments : List (String × String)
  result : Option String

/-- The result object of one agent turn, with the fields the validators
consult. -/
structure TurnResult where
  toolCalls : List ToolCall
  finalResponse : String
  success : Bool

/-- The result object's `tool_calls_for(name)` accessor: the calls whose
tool name matches. -/
def tool_calls_for (r : TurnResult) (n : String) : List ToolCall :=
  r.toolCalls.filter (fun c => c.name == n)

/-- Python truthiness of a raw result payload (`if call.result:`). -/
def resultTruthy : Option String → Bool
| none => false
| some s => !s.isEmpty

/-- The record synthesized on decode failure (source:
`outputs.append({"exit_code": -1, "stdout": call.result, "stderr": ""})`). -/
def synthFailureRecord (raw : String) : JValue :=
  .jobj [("exit_code", .jint (-1)), ("stdout", .jstr raw), ("stderr", .jstr "")]

/-- Decode one truthy raw result: `json.loads` on success, the
synthesized always-failing record on `JSONDecodeError`. -/
def decodeOrSynth (raw : String) : JValue :=
  match json_loads raw with
  | some v => v
  | none => synthFailureRecord raw

/-- The model of `_parse_cli_results`: decoded results of the
`excel_execute` calls whose raw result payload is truthy. -/
def parse_cli_results (result : TurnResult) : List JValue :=
  (tool_calls_for result "excel_execute").filterMap (fun call =>
    match call.result with
    | none => none
    | some raw => if raw.isEmpty then none else some (decodeOrSynth raw))

/-- How a call to `assert_cli_exit_codes` ends.  `noExecutionsRecorded`
models `AssertionError("No CLI executions recorded")`;
`exitCodeNotZero v` models `AssertionError(f"CLI exit code not zero:
{output}")` carrying the offending decoded record `v`; `attributeError`
models the `AttributeError` Python raises when `.get` is called on a
decoded result that is not a mapping. -/
inductive ExitCodeCheck
| passed
| noExecutionsRecorded
| exitCodeNotZero (offending : JValue)
| attributeError

/-- Python's `value == 0` on an optional looked-up field, for the value
shapes this model reproduces exactly: `dict.get` returns `None` when the
key is absent, and `None == 0` is `False`; an integer compares by value;
`False == 0` is `True` because `bool` is an `int` subtype; strings,
lists, mappings and `None` all compare unequal to `0`.  A float field is
not reproduced: Python compares a float to `0` by its IEEE-754 double
value (`0e5 == 0`, and even `1e-999999 == 0` through underflow), so the
exit-code characterization theorem excludes float exit-code fields by
hypothesis rather than model them here. -/
def pyEqZero : Option JValue → Bool
| some (.jint n) => n == 0
| some (.jbool b) => b == false
| _ => false

/-- Whether an optional decoded value is a float literal — the one value
shape whose Python `== 0` comparison this model does not reproduce. -/
def isFloatValue : Option JValue → Bool
| some (.jfloat _) => true
| _ => false

/-- The loop of `assert_cli_exit_codes` over the decoded outputs:
`if output.get("exit_code") != 0: raise AssertionError(...)`. -/
def checkExitCodes : List JValue → ExitCodeCheck
| [] => .passed
| v :: rest =>
  match v with
  | .jobj fields =>
    if pyEqZero (jdictGet fields "exit_code") then checkExitCodes rest
    else .exitCodeNotZero (.jobj fields)
  | _ => .attributeError

/-- The model of `assert_cli_exit_codes(result)`. -/
def assert_cli_exit_codes (result : TurnResult) : ExitCodeCheck :=
  let outputs := parse_cli_results result
  if outputs.isEmpty then .noExecutionsRecorded
  else checkExitCodes outputs

/-- How a call to `assert_cli_args_contain` ends; `missingToken t` models
`AssertionError(f"Expected CLI args to include '{t}', but none did.")`,
which names the missing token. -/
inductive ArgsCheck
| passed
| missingToken (token : String)
deriving DecidableEq, Repr

/-- Python `dict.get(key, default)` on a string-valued argument mapping. -/
def strDictGetD (m : List (String × String)) (k d : String) : String :=
  match m.reverse.find? (fun kv => kv.1 == k) with
  | some kv => kv.2
  | none => d

/-- The loop of `assert_cli_args_contain`:
`args = call.arguments.get("args", ""); if token in args: return`. -/
def argsContainLoop (token : String) : List ToolCall → ArgsCheck
| [] => .missingToken token
| call :: rest =>
  if pyIn token (strDictGetD call.arguments "args" "") then .passed
  else argsContainLoop token rest

/-- The model of `assert_cli_args_contain(result, token)`. -/
def assert_cli_args_contain (result : TurnResult) (token : String) : ArgsCheck :=
  argsContainLoop token (tool_calls_for result "excel_execute")

/-! ## The multi-turn scenario runner

`test_cli_sales_report_workflow` is a straight-line coroutine: for each
step it awaits `aitest_run(agent, prompt, messages=messages)`, then runs
that step's validators (`assert result.success`, `assert_cli_exit_codes`,
`assert_regex`, membership asserts) in order, and only then assigns
`messages = result.messages` and proceeds to the next step's invocation.
A raised `AssertionError` aborts the whole test function at that point —
Python executes nothing after an uncaught exception — so the embedding
below runs steps sequentially, threads the conversation state, records an
event trace (which invocations and which validator evaluations happened,
in order), and stops at the first failing validator, surfacing its step
index, validator index and message. -/

/-- One observable event of a scenario run: the agent invocation of a
step, or the evaluation of one of a step's validators. -/
inductive Event
| invokeStep (step : Nat)
| validate (step vidx : Nat)
deriving DecidableEq, Repr

/-- One scenario step: its validators, in the order the test body runs
them after the `await` returns.  A validator returning `some msg` models a
raised `AssertionError(msg)`. -/
structure StepSpec where
  validators : List (TurnResult → Option String)

/-- Run one step's validators in order over its turn result, recording a
`validate` event per evaluation and stopping at the first failure. -/
def runValidators (step : Nat) (r : TurnResult) :
    List (TurnResult → Option String) → Nat → List Event × Option (Nat × String)
| [], _ => ([], none)
| v :: vs, j =>
  match v r with
  | some msg => ([.validate step j], some (j, msg))
  | none =>
    match runValidators step r vs (j + 1) with
    | (evs, res) => (.validate step j :: evs, res)

/-- Run the steps from index `idx` with conversation state `st`.  `invoke`
is the external agent: given the step index and the threaded conversation
state it yields that step's `TurnResult` and the next conversation state
(the `messages = result.messages` handoff).  Returns the event trace and
the first failure `(step, validator, message)`, if any. -/
def runScenarioAux {σ : Type} (invoke : Nat → σ → TurnResult × σ) :
    Nat → σ → List StepSpec → List Event × Option (Nat × Nat × String)
| _, _, [] => ([], none)
| idx, st, step :: rest =>
  match runValidators idx (invoke idx st).1 step.validators 0 with
  | (evs, some jm) => (.invokeStep idx :: evs, some (idx, jm.1, jm.2))
  | (evs, none) =>
    match runScenarioAux invoke (idx + 1) (invoke idx st).2 rest with
    | (tevs, res) => (.invokeStep idx :: (evs ++ tevs), res)

/-- A whole scenario run from step 0. -/
def runScenario {σ : Type} (invoke : Nat → σ → TurnResult × σ) (st0 : σ)
    (steps : List StepSpec) : List Event × Option (Nat × Nat × String) :=
  runScenarioAux invoke 0 st0 steps

/-- Number of validators of step `m` of a scenario. -/
def validatorCount (steps : List StepSpec) (m : Nat) : Nat :=
  match steps.get? m with
  | some s => s.validators.length
  | none => 0

/-! ## Lemmas about the startup polling loop -/

/-- The polling loop only inspects the probes of the attempts it has fuel
for. -/
theorem awaitReadyAux_congr (p1 p2 : Nat → ProbeOutcome) :
    ∀ (fuel i : Nat), (∀ t, i ≤ t → t < i + fuel → p1 t = p2 t) →
    awaitReadyAux p1 i fuel = awaitReadyAux p2 i fuel := by
  intro fuel
  induction fuel with
  | zero => intro i _; rfl
  | succ f ih =>
    intro i h
    have h0 : p1 i = p2 i := h i (Nat.le_refl i) (by omega)
    have hrec : awaitReadyAux p1 (i + 1) f = awaitReadyAux p2 (i + 1) f :=
      ih (i + 1) (fun t ht1 ht2 => h t (by omega) (by omega))
    simp only [awaitReadyAux, h0, hrec]

/-- If every attempt in the remaining budget observes not-ready and raises
nothing uncaught, the loop exhausts the budget: one probe and one sleep
per attempt, then the kill-and-raise branch. -/
theorem awaitReadyAux_exhaust (probe : Nat → ProbeOutcome) :
    ∀ (fuel i : Nat),
    (∀ t, t < fuel → probeReady (probe (i + t)) = false ∧ probeUncaughtRaise (probe (i + t)) = false) →
    awaitReadyAux probe i fuel = ⟨fuel, fuel, .startupTimeout true startupTimeoutMessage⟩ := by
  intro fuel
  induction fuel with
  | zero => intro i _; rfl
  | succ f ih =>
    intro i h
    have h0 := h 0 (Nat.succ_pos f)
    rw [Nat.add_zero] at h0
    have hrec := ih (i + 1) (fun t ht => by
      have := h (t + 1) (Nat.succ_lt_succ ht)
      rwa [show i + (t + 1) = i + 1 + t by omega] at this)
    cases hp : probe i with
    | raises e =>
      have hc : isCaught e = true := by
        have h2 := h0.2
        rw [hp] at h2
        simpa [probeUncaughtRaise] using h2
      simp only [awaitReadyAux, hp, hc, if_true, hrec]
    | completes rc out =>
      have hnr : (rc == 0 && pyIn readyMarker out) = false := by
        have h1 := h0.1
        rw [hp] at h1
        simpa [probeReady] using h1
      simp [awaitReadyAux, hp, hnr, hrec]

/-- If the first `d` attempts observe not-ready (raising nothing uncaught)
and attempt `d` observes ready, the loop performs exactly `d + 1` probes
and `d` sleeps and returns ready. -/
theorem awaitReadyAux_first_ready (probe : Nat → ProbeOutcome) :
    ∀ (d fuel i : Nat), d < fuel →
    (∀ t, t < d → probeReady (probe (i + t)) = false ∧ probeUncaughtRaise (probe (i + t)) = false) →
    probeReady (probe (i + d)) = true →
    awaitReadyAux probe i fuel = ⟨d + 1, d, .ready⟩ := by
  intro d
  induction d with
  | zero =>
    intro fuel i hd _ hr
    rw [Nat.add_zero] at hr
    obtain ⟨f, rfl⟩ : ∃ f, fuel = f + 1 := ⟨fuel - 1, by omega⟩
    cases hp : probe i with
    | raises e => rw [hp] at hr; simp [probeReady] at hr
    | completes rc out =>
      rw [hp] at hr
      have : (rc == 0 && pyIn readyMarker out) = true := by simpa [probeReady] using hr
      simp only [awaitReadyAux, hp, this, if_true]
  | succ d ih =>
    intro fuel i hd h hr
    obtain ⟨f, rfl⟩ : ∃ f, fuel = f + 1 := ⟨fuel - 1, by omega⟩
    have h0 := h 0 (Nat.succ_pos d)
    rw [Nat.add_zero] at h0
    have hrec : awaitReadyAux probe (i + 1) f = ⟨d + 1, d, .ready⟩ := by
      refine ih f (i + 1) (by omega) (fun t ht => ?_) ?_
      · have := h (t + 1) (Nat.succ_lt_succ ht)
        rwa [show i + (t + 1) = i + 1 + t by omega] at this
      · rwa [show i + (d + 1) = i + 1 + d by omega] at hr
    cases hp : probe i with
    | raises e =>
      have hc : isCaught e = true := by
        have h2 := h0.2
        rw [hp] at h2
        simpa [probeUncaughtRaise] using h2
      simp only [awaitReadyAux, hp, hc, if_true, hrec]
    | completes rc out =>
      have hnr : (rc == 0 && pyIn readyMarker out) = false := by
        have h1 := h0.1
        rw [hp] at h1
        simpa [probeReady] using h1
      simp [awaitReadyAux, hp, hnr, hrec]

/-- If no attempt in the budget raises an uncaught exception kind, the
loop's outcome is never exception propagation. -/
theorem awaitReadyAux_no_uncaught (probe : Nat → ProbeOutcome) :
    ∀ (fuel i : Nat),
    (∀ t, t < fuel → probeUncaughtRaise (probe (i + t)) = false) →
    ∀ e, (awaitReadyAux probe i fuel).outcome ≠ .uncaught e := by
  intro fuel
  induction fuel with
  | zero =>
    intro i _ e
    simp [awaitReadyAux]
  | succ f ih =>
    intro i h e
    have h0 := h 0 (Nat.succ_pos f)
    rw [Nat.add_zero] at h0
    have hrec := ih (i + 1) (fun t ht => by
      have := h (t + 1) (Nat.succ_lt_succ ht)
      rwa [show i + (t + 1) = i + 1 + t by omega] at this)
    cases hp : probe i with
    | raises e2 =>
      have hc : isCaught e2 = true := by
        rw [hp] at h0
        simpa [probeUncaughtRaise] using h0
      simp only [awaitReadyAux, hp, hc, if_true]
      exact hrec e
    | completes rc out =>
      by_cases hry : (rc == 0 && pyIn readyMarker out) = true
      · simp [awaitReadyAux, hp, hry]
      · simp only [awaitReadyAux, hp, Bool.not_eq_true] at hry ⊢
        simp only [hry, if_false]
        exact hrec e

/-! ## Claim theorems for the daemon supervisor -/

/-- C1: for every terminal state of the supervised daemon at session
teardown — the process already exited (all calls complete), the process
unresponsive to the graceful stop (`proc.wait(timeout=10)` raising
`TimeoutExpired`), or the stop invocation itself raising a timeout or OS
error — the teardown phase of `cli_daemon` completes without raising:
whenever the exceptions raised by the stop invocation and the graceful
wait are of the caught kinds (timeout / OS error) and the force-kill and
the wait-for-reap after it complete (as they do in those terminal states),
the teardown returns normally, force-killing exactly when the graceful
path erred. -/
theorem cli_daemon_teardown_never_raises (env : TeardownEnv)
    (h1 : optCaught env.runStop = true) (h2 : optCaught env.waitAfterStop = true)
    (h3 : env.kill = none) (h4 : env.waitAfterKill = none) :
    cli_daemon_teardown env =
      (.completed, env.runStop.isSome || env.waitAfterStop.isSome) := by
  cases henv : env.runStop with
  | some e =>
    have hc : isCaught e = true := by rw [henv] at h1; simpa [optCaught] using h1
    simp [cli_daemon_teardown, henv, hc, teardownKillPath, h3, h4]
  | none =>
    cases henv2 : env.waitAfterStop with
    | some e =>
      have hc : isCaught e = true := by rw [henv2] at h2; simpa [optCaught] using h2
      simp [cli_daemon_teardown, henv, henv2, hc, teardownKillPath, h3, h4]
    | none => simp [cli_daemon_teardown, henv, henv2]

/-- Witness for C1: a daemon unresponsive to the graceful stop (the stop
sub-command times out) is force-killed and the teardown still completes. -/
theorem cli_daemon_teardown_never_raises_witness :
    cli_daemon_teardown ⟨some .timeoutExpired, none, none, none⟩ = (.completed, true) := by
  have h := cli_daemon_teardown_never_raises ⟨some .timeoutExpired, none, none, none⟩
    (by decide) (by decide) rfl rfl
  simpa using h

/-- C2 counterexample: when no probe ever observes readiness, the fixture
kills the daemon and raises, but the raised error's message is the fixed
string reporting the derived total budget ("10 seconds"); it carries
neither the attempt count (20) nor the poll interval (0.5), contradicting
the claim that the startup-timeout error carries the attempt count and
interval. -/
theorem cli_daemon_startup_timeout_counterexample :
    cli_daemon_await_ready (fun _ => .completes 1 "") =
      ⟨20, 20, .startupTimeout true startupTimeoutMessage⟩
    ∧ pyIn "20" startupTimeoutMessage = false
    ∧ pyIn "0.5" startupTimeoutMessage = false
    ∧ pyIn "attempt" startupTimeoutMessage = false
    ∧ pyIn "10 seconds" startupTimeoutMessage = true := by
  refine ⟨?_, rfl, rfl, rfl, rfl⟩
  rfl

/-- C2 amended: for every probe sequence in which no status probe within
the 20 attempts observes the ready condition (and none raises an uncaught
exception kind), the startup phase performs all 20 probes and sleeps,
kills the just-launched daemon process, and raises the startup-timeout
error whose message reports the total startup budget ("CLI daemon did not
start within 10 seconds"); it never returns success and never leaves the
process running. -/
theorem cli_daemon_startup_exhaustion (probe : Nat → ProbeOutcome)
    (h : ∀ i, i < 20 → probeReady (probe i) = false ∧ probeUncaughtRaise (probe i) = false) :
    cli_daemon_await_ready probe = ⟨20, 20, .startupTimeout true startupTimeoutMessage⟩ := by
  unfold cli_daemon_await_ready
  exact awaitReadyAux_exhaust probe 20 0 (fun t ht => by simpa using h t ht)

/-- Witness for C2 amended: probes that always complete with exit code 1
exhaust the budget. -/
theorem cli_daemon_startup_exhaustion_witness :
    cli_daemon_await_ready (fun _ => .completes 1 "x") =
      ⟨20, 20, .startupTimeout true startupTimeoutMessage⟩ :=
  cli_daemon_startup_exhaustion (fun _ => .completes 1 "x") (by decide)

/-- C3: for every probe sequence whose first `k` attempts (`k < 20`) do
not observe readiness (raising nothing uncaught) and whose `(k+1)`-th
probe reports ready, the readiness loop succeeds immediately after that
probe: exactly `k + 1` probes, exactly `k` poll-interval sleeps (none
after the ready probe), outcome ready; and readiness of a completed probe
requires exactly the zero exit code together with the
`"running":true` marker occurring in its stdout. -/
theorem cli_daemon_ready_stops_polling (probe : Nat → ProbeOutcome) (k : Nat)
    (hk : k < 20)
    (h : ∀ i, i < k → probeReady (probe i) = false ∧ probeUncaughtRaise (probe i) = false)
    (hr : probeReady (probe k) = true) :
    cli_daemon_await_ready probe = ⟨k + 1, k, .ready⟩
    ∧ ∀ (rc : Int) (out : String),
        probeReady (.completes rc out) = true ↔ (rc = 0 ∧ pyIn readyMarker out = true) := by
  constructor
  · unfold cli_daemon_await_ready
    exact awaitReadyAux_first_ready probe k 20 0 hk
      (fun t ht => by simpa using h t ht) (by simpa using hr)
  · intro rc out
    simp [probeReady, Bool.and_eq_true, beq_iff_eq]

/-- Witness for C3, mirroring the spec's end-to-end example: not-ready for
3 probes, ready on the 4th — 4 probes, 3 sleeps, success. -/
theorem cli_daemon_ready_stops_polling_witness :
    cli_daemon_await_ready
      (fun i => if i = 3 then .completes 0 "\x7b\"running\":true\x7d" else .completes 1 "") =
      ⟨4, 3, .ready⟩ := by
  have h := cli_daemon_ready_stops_polling
    (fun i => if i = 3 then .completes 0 "\x7b\"running\":true\x7d" else .completes 1 "")
    3 (by omega) (by decide) (by decide)
  exact h.1

/-- C10: a status probe raising a subprocess timeout or OS error inside
the polling loop is caught and treated exactly like a not-ready
observation: provided no attempt raises an uncaught exception kind, no
probe-level exception ever propagates out of the startup phase, and
replacing a caught-raising attempt by a not-ready completion leaves the
whole startup run (probe count, sleep count, outcome) unchanged. -/
theorem cli_daemon_probe_errors_swallowed (probe : Nat → ProbeOutcome) (j : Nat) (e : PyErr)
    (h : ∀ i, i < 20 → probeUncaughtRaise (probe i) = false)
    (hj : j < 20) (he : probe j = .raises e) :
    (∀ e2, (cli_daemon_await_ready probe).outcome ≠ .uncaught e2)
    ∧ cli_daemon_await_ready probe =
        cli_daemon_await_ready (fun t => if t = j then .completes 1 "" else probe t) := by
  have hc : isCaught e = true := by
    have := h j hj
    rw [he] at this
    simpa [probeUncaughtRaise] using this
  constructor
  · intro e2
    unfold cli_daemon_await_ready
    exact awaitReadyAux_no_uncaught probe 20 0 (fun t ht => by simpa using h t ht) e2
  · unfold cli_daemon_await_ready
    have main : ∀ (fuel i : Nat), i + fuel ≤ 21 →
        awaitReadyAux probe i fuel =
        awaitReadyAux (fun t => if t = j then .completes 1 "" else probe t) i fuel := by
      intro fuel
      induction fuel with
      | zero => intro i _; rfl
      | succ f ih =>
        intro i hif
        by_cases hij : i = j
        · subst hij
          have hrest : awaitReadyAux probe (i + 1) f =
              awaitReadyAux (fun t => if t = i then .completes 1 "" else probe t) (i + 1) f := by
            apply awaitReadyAux_congr
            intro t ht1 _
            have : t ≠ i := by omega
            simp [this]
          simp only [awaitReadyAux, he, hc, if_true, if_pos rfl]
          have hnr : ((1 : Int) == 0 && pyIn readyMarker "") = false := by decide
          simp only [hnr, Bool.false_eq_true, if_false, hrest]
        · have hrec := ih (i + 1) (by omega)
          cases hp : probe i with
          | raises e2 =>
            simp only [awaitReadyAux, if_neg hij, hp, hrec]
          | completes rc out =>
            simp only [awaitReadyAux, if_neg hij, hp, hrec]
    exact main 20 0 (by omega)

/-- Witness for C10: the first probe times out, the second reports ready;
the run is identical to one where the first probe merely completed
not-ready. -/
theorem cli_daemon_probe_errors_swallowed_witness :
    cli_daemon_await_ready
        (fun i => if i = 0 then .raises .timeoutExpired
                  else .completes 0 "\x7b\"running\":true\x7d") =
      cli_daemon_await_ready
        (fun t => if t = 0 then .completes 1 ""
                  else if t = 0 then .raises .timeoutExpired
                  else .completes 0 "\x7b\"running\":true\x7d") := by
  have h := cli_daemon_probe_errors_swallowed
    (fun i => if i = 0 then .raises .timeoutExpired
              else .completes 0 "\x7b\"running\":true\x7d")
    0 .timeoutExpired (by decide) (by omega) (by decide)
  exact h.2

/-! ## Claim theorems for the transcript parser and validators -/

/-- The `exit_code` field of a decoded result, as `output.get("exit_code")`
reads it (`none` both for a missing key and for a non-mapping value). -/
def exitField : JValue → Option JValue
| .jobj fields => jdictGet fields "exit_code"
| _ => none

/-- C4: a tool-call entry whose non-empty raw result string is not valid
JSON is neither discarded nor allowed to raise: the parsed output list
keeps the entry's position and holds the synthesized record
`exit_code = -1`, `stdout` the raw string verbatim, `stderr` empty. -/
theorem parse_cli_results_synthesizes_on_decode_failure
    (pre post : List ToolCall) (args : List (String × String))
    (fr : String) (sc : Bool) (raw : String)
    (hraw : raw ≠ "") (hbad : json_loads raw = none) :
    parse_cli_results ⟨pre ++ ⟨"excel_execute", args, some raw⟩ :: post, fr, sc⟩ =
      parse_cli_results ⟨pre, fr, sc⟩
        ++ synthFailureRecord raw :: parse_cli_results ⟨post, fr, sc⟩ := by
  have hempty : raw.isEmpty = false := by
    rcases h : raw.isEmpty with _ | _
    · rfl
    · exact absurd ((String.isEmpty_iff raw).mp h) hraw
  simp [parse_cli_results, tool_calls_for, List.filter_append, List.filterMap_append,
    hempty, decodeOrSynth, hbad]

/-- Witness for C4, the spec's end-to-end example: the malformed raw
result `"{not valid json"` yields exactly the synthesized failing
record. -/
theorem parse_cli_results_synthesizes_on_decode_failure_witness :
    parse_cli_results ⟨[⟨"excel_execute", [], some "\x7bnot valid json"⟩], "", true⟩ =
      [synthFailureRecord "\x7bnot valid json"] := by
  have h := parse_cli_results_synthesizes_on_decode_failure [] [] [] "" true
    "\x7bnot valid json" (by decide) rfl
  simpa using h

/-- C8: the raw result encoding `exit_code 0, stdout "ok", stderr ""`
decodes to a record whose exit-code field is exactly `0`;
`assert_cli_exit_codes` passes on a turn holding only that record, and
raises on the turn extended with a sibling record whose exit code decodes
to `1`, carrying that offending record. -/
theorem decode_roundtrip_exit_codes :
    parse_cli_results ⟨[⟨"excel_execute", [],
        some "\x7b\"exit_code\": 0, \"stdout\": \"ok\", \"stderr\": \"\"\x7d"⟩], "", true⟩ =
      [.jobj [("exit_code", .jint 0), ("stdout", .jstr "ok"), ("stderr", .jstr "")]]
    ∧ exitField (.jobj [("exit_code", .jint 0), ("stdout", .jstr "ok"), ("stderr", .jstr "")]) =
        some (.jint 0)
    ∧ assert_cli_exit_codes ⟨[⟨"excel_execute", [],
        some "\x7b\"exit_code\": 0, \"stdout\": \"ok\", \"stderr\": \"\"\x7d"⟩], "", true⟩ =
        .passed
    ∧ assert_cli_exit_codes ⟨[⟨"excel_execute", [],
        some "\x7b\"exit_code\": 0, \"stdout\": \"ok\", \"stderr\": \"\"\x7d"⟩,
        ⟨"excel_execute", [],
        some "\x7b\"exit_code\": 1, \"stdout\": \"ok\", \"stderr\": \"\"\x7d"⟩], "", true⟩ =
        .exitCodeNotZero
          (.jobj [("exit_code", .jint 1), ("stdout", .jstr "ok"), ("stderr", .jstr "")]) :=
  ⟨rfl, rfl, rfl, rfl⟩

/-- C9: a tool-call entry whose raw result payload is falsy (absent or the
empty string) is dropped entirely rather than turned into a failing
record; a turn all of whose `excel_execute` calls returned falsy payloads
parses to the empty list, and `assert_cli_exit_codes` then raises the
"No CLI executions recorded" error even though tool calls were observed. -/
theorem parse_cli_results_drops_falsy_results (tr : TurnResult)
    (h : ∀ call ∈ tool_calls_for tr "excel_execute", resultTruthy call.result = false) :
    parse_cli_results tr = [] ∧ assert_cli_exit_codes tr = .noExecutionsRecorded := by
  have hnil : parse_cli_results tr = [] := by
    unfold parse_cli_results
    rw [List.filterMap_eq_nil_iff]
    intro call hcall
    have := h call hcall
    cases hres : call.result with
    | none => rfl
    | some raw =>
      rw [hres] at this
      have hemp : raw.isEmpty = true := by simpa [resultTruthy] using this
      simp [hemp]
  refine ⟨hnil, ?_⟩
  simp [assert_cli_exit_codes, hnil]

/-- Witness for C9: one empty-string result and one absent result — two
observed tool calls, an empty parsed list, and the no-executions error. -/
theorem parse_cli_results_drops_falsy_results_witness :
    parse_cli_results ⟨[⟨"excel_execute", [], some ""⟩, ⟨"excel_execute", [], none⟩],
        "", true⟩ = []
    ∧ assert_cli_exit_codes ⟨[⟨"excel_execute", [], some ""⟩, ⟨"excel_execute", [], none⟩],
        "", true⟩ = .noExecutionsRecorded :=
  parse_cli_results_drops_falsy_results
    ⟨[⟨"excel_execute", [], some ""⟩, ⟨"excel_execute", [], none⟩], "", true⟩
    (by decide)

/-- The loop of `assert_cli_args_contain` passes exactly when some call in
the list carries the token, and otherwise reports the token missing. -/
theorem argsContainLoop_spec (token : String) :
    ∀ l : List ToolCall,
    (argsContainLoop token l = .passed ↔
      ∃ call ∈ l, pyIn token (strDictGetD call.arguments "args" "") = true)
    ∧ (argsContainLoop token l = .passed ∨ argsContainLoop token l = .missingToken token) := by
  intro l
  induction l with
  | nil =>
    constructor
    · constructor
      · intro h; cases h
      · intro h
        obtain ⟨c, hc, _⟩ := h
        cases hc
    · exact Or.inr rfl
  | cons c rest ih =>
    by_cases hc : pyIn token (strDictGetD c.arguments "args" "") = true
    · have hp : argsContainLoop token (c :: rest) = .passed := by
        simp [argsContainLoop, hc]
      constructor
      · constructor
        · intro _
          exact ⟨c, List.mem_cons_self c rest, hc⟩
        · intro _
          exact hp
      · exact Or.inl hp
    · have hcf : pyIn token (strDictGetD c.arguments "args" "") = false := by
        rwa [Bool.not_eq_true] at hc
      have hloop : argsContainLoop token (c :: rest) = argsContainLoop token rest := by
        simp [argsContainLoop, hcf]
      rw [hloop]
      constructor
      · constructor
        · intro h
          obtain ⟨d, hd, hdt⟩ := ih.1.mp h
          exact ⟨d, List.mem_cons_of_mem c hd, hdt⟩
        · intro h
          obtain ⟨d, hd, hdt⟩ := h
          rcases List.mem_cons.mp hd with rfl | hd2
          · exact absurd hdt hc
          · exact ih.1.mpr ⟨d, hd2, hdt⟩
      · exact ih.2

/-- C7: `assert_cli_args_contain` passes if and only if some recorded
`excel_execute` call's argument mapping, rendered as its invocation
string (`arguments.get("args", "")`), contains the token as a substring;
otherwise it raises the assertion error naming the missing token. -/
theorem assert_cli_args_contain_iff (result : TurnResult) (token : String) :
    (assert_cli_args_contain result token = .passed ↔
      ∃ call ∈ tool_calls_for result "excel_execute",
        pyIn token (strDictGetD call.arguments "args" "") = true)
    ∧ (assert_cli_args_contain result token = .passed
       ∨ assert_cli_args_contain result token = .missingToken token) :=
  argsContainLoop_spec token (tool_calls_for result "excel_execute")

/-- Characterization of the exit-code loop on lists of decoded mappings:
it passes exactly when every record's exit-code field compares equal to 0
under Python `==` (a missing field compares unequal), and a failure
carries the first offending record. -/
theorem checkExitCodes_spec :
    ∀ l : List JValue, (∀ v ∈ l, ∃ fields, v = .jobj fields) →
    (checkExitCodes l = .passed ↔ ∀ v ∈ l, pyEqZero (exitField v) = true)
    ∧ (∀ v, checkExitCodes l = .exitCodeNotZero v →
        ∃ p q, l = p ++ v :: q ∧ pyEqZero (exitField v) = false
          ∧ ∀ u ∈ p, pyEqZero (exitField u) = true) := by
  intro l
  induction l with
  | nil =>
    intro _
    constructor
    · constructor
      · intro _ v hv
        cases hv
      · intro _
        rfl
    · intro v hv
      cases hv
  | cons x rest ih =>
    intro hobj
    obtain ⟨fields, rfl⟩ := hobj x (List.mem_cons_self x rest)
    have ihr := ih (fun v hv => hobj v (List.mem_cons_of_mem _ hv))
    by_cases hz : pyEqZero (jdictGet fields "exit_code") = true
    · have hstep : checkExitCodes (JValue.jobj fields :: rest) = checkExitCodes rest := by
        simp [checkExitCodes, hz]
      rw [hstep]
      constructor
      · constructor
        · intro h v hv
          rcases List.mem_cons.mp hv with rfl | hv2
          · simpa [exitField] using hz
          · exact ihr.1.mp h v hv2
        · intro h
          exact ihr.1.mpr (fun v hv => h v (List.mem_cons_of_mem _ hv))
      · intro v hv
        obtain ⟨p, q, hl, hnz, hall⟩ := ihr.2 v hv
        refine ⟨.jobj fields :: p, q, by rw [hl, List.cons_append], hnz, ?_⟩
        intro u hu
        rcases List.mem_cons.mp hu with rfl | hu2
        · simpa [exitField] using hz
        · exact hall u hu2
    · have hzf : pyEqZero (jdictGet fields "exit_code") = false := by
        rwa [Bool.not_eq_true] at hz
      have hstep : checkExitCodes (JValue.jobj fields :: rest) =
          .exitCodeNotZero (.jobj fields) := by
        simp [checkExitCodes, hzf]
      rw [hstep]
      constructor
      · constructor
        · intro h
          cases h
        · intro h
          have := h (.jobj fields) (List.mem_cons_self _ rest)
          rw [show exitField (.jobj fields) = jdictGet fields "exit_code" from rfl] at this
          rw [this] at hzf
          cases hzf
      · intro v hv
        have hveq : v = .jobj fields := by
          cases hv
          rfl
        subst hveq
        exact ⟨[], rest, rfl, by simpa [exitField] using hzf, fun u hu => by cases hu⟩

/-- C5 counterexample: a decoded record that merely lacks an exit-code
field makes `assert_cli_exit_codes` raise — the claim's "every record
either lacks an exit-code field or has it equal to 0 passes" is false on
the code, because `output.get("exit_code")` yields `None` for a missing
field and `None != 0` holds in Python. -/
theorem assert_cli_exit_codes_missing_field_counterexample :
    parse_cli_results ⟨[⟨"excel_execute", [], some "\x7b\x7d"⟩], "", true⟩ = [.jobj []]
    ∧ exitField (.jobj []) = none
    ∧ assert_cli_exit_codes ⟨[⟨"excel_execute", [], some "\x7b\x7d"⟩], "", true⟩ =
        .exitCodeNotZero (.jobj [])
    ∧ ExitCodeCheck.exitCodeNotZero (.jobj []) ≠ .passed :=
  ⟨rfl, rfl, rfl, fun h => ExitCodeCheck.noConfusion h⟩

/-- C5 amended: on every turn result whose decoded records are all
mappings and whose exit-code fields, when present, are not floats (the
shapes on which `pyEqZero` is exactly Python `==`),
`assert_cli_exit_codes` raises exactly when the parsed record list is
empty (the distinguished "no executions recorded" error, not a vacuous
pass) or when some record's exit-code field compares unequal to 0 under
Python `==` — which includes a missing field, not only a present
non-zero one — carrying the first offending record; it passes exactly
when the list is non-empty and every record's exit-code field compares
equal to 0. -/
theorem assert_cli_exit_codes_characterization (tr : TurnResult)
    (hobj : ∀ v ∈ parse_cli_results tr,
      (∃ fields, v = .jobj fields) ∧ isFloatValue (exitField v) = false) :
    (parse_cli_results tr = [] → assert_cli_exit_codes tr = .noExecutionsRecorded)
    ∧ (assert_cli_exit_codes tr = .passed ↔
        parse_cli_results tr ≠ []
        ∧ ∀ v ∈ parse_cli_results tr, pyEqZero (exitField v) = true)
    ∧ (∀ v, assert_cli_exit_codes tr = .exitCodeNotZero v →
        ∃ p q, parse_cli_results tr = p ++ v :: q
          ∧ pyEqZero (exitField v) = false
          ∧ ∀ u ∈ p, pyEqZero (exitField u) = true) := by
  have hspec := checkExitCodes_spec (parse_cli_results tr) (fun v hv => (hobj v hv).1)
  cases hl : parse_cli_results tr with
  | nil =>
    have hassert : assert_cli_exit_codes tr = .noExecutionsRecorded := by
      simp [assert_cli_exit_codes, hl]
    refine ⟨fun _ => hassert, ?_, ?_⟩
    · rw [hassert]
      constructor
      · intro h
        cases h
      · intro h
        exact absurd rfl h.1
    · intro v hv
      rw [hassert] at hv
      cases hv
  | cons x rest =>
    have hassert : assert_cli_exit_codes tr = checkExitCodes (x :: rest) := by
      simp [assert_cli_exit_codes, hl]
    rw [hl] at hspec
    refine ⟨?_, ?_, ?_⟩
    · intro h
      exact absurd h (List.cons_ne_nil x rest)
    · rw [hassert]
      constructor
      · intro h
        exact ⟨by simp, hspec.1.mp h⟩
      · intro h
        exact hspec.1.mpr h.2
    · intro v hv
      rw [hassert] at hv
      exact hspec.2 v hv

/-- Witness for C5 amended: a single record with exit code 0 passes. -/
theorem assert_cli_exit_codes_characterization_witness :
    assert_cli_exit_codes ⟨[⟨"excel_execute", [], some "\x7b\"exit_code\": 0\x7d"⟩],
      "", true⟩ = .passed := by
  have h := assert_cli_exit_codes_characterization
    ⟨[⟨"excel_execute", [], some "\x7b\"exit_code\": 0\x7d"⟩], "", true⟩
    (by
      intro v hv
      have hpl : parse_cli_results
          ⟨[⟨"excel_execute", [], some "\x7b\"exit_code\": 0\x7d"⟩], "", true⟩ =
          [.jobj [("exit_code", .jint 0)]] := rfl
      rw [hpl] at hv
      rcases List.mem_singleton.mp hv with rfl
      exact ⟨⟨[("exit_code", .jint 0)], rfl⟩, rfl⟩)
  refine h.2.1.mpr ⟨?_, ?_⟩
  · intro hnil
    have hpl : parse_cli_results
        ⟨[⟨"excel_execute", [], some "\x7b\"exit_code\": 0\x7d"⟩], "", true⟩ =
        [.jobj [("exit_code", .jint 0)]] := rfl
    rw [hpl] at hnil
    cases hnil
  · intro v hv
    have hpl : parse_cli_results
        ⟨[⟨"excel_execute", [], some "\x7b\"exit_code\": 0\x7d"⟩], "", true⟩ =
        [.jobj [("exit_code", .jint 0)]] := rfl
    rw [hpl] at hv
    rcases List.mem_singleton.mp hv with rfl
    rfl

/-! ## Lemmas about scenario traces -/

/-- The validator-evaluation events of one step: `n` consecutive
evaluations starting at validator index `j`. -/
def validateEvts (s : Nat) : Nat → Nat → List Event
| _, 0 => []
| j, n + 1 => .validate s j :: validateEvts s (j + 1) n

/-- The full event block of a successfully completed step: its invocation
followed by all its validator evaluations. -/
def scenarioBlocks : List StepSpec → Nat → Nat → List Event
| _, _, 0 => []
| [], _, _ + 1 => []
| s :: rest, idx, d + 1 =>
  (.invokeStep idx :: validateEvts idx 0 s.validators.length)
    ++ scenarioBlocks rest (idx + 1) d

theorem validateEvts_mem (s : Nat) :
    ∀ (n j : Nat) (e : Event), e ∈ validateEvts s j n ↔ ∃ t, t < n ∧ e = .validate s (j + t) := by
  intro n
  induction n with
  | zero =>
    intro j e
    constructor
    · intro h
      cases h
    · intro h
      obtain ⟨t, ht, _⟩ := h
      omega
  | succ n ih =>
    intro j e
    constructor
    · intro h
      rcases List.mem_cons.mp h with rfl | h2
      · exact ⟨0, by omega, by rw [Nat.add_zero]⟩
      · obtain ⟨t, ht, rfl⟩ := (ih (j + 1) e).mp h2
        exact ⟨t + 1, by omega, by rw [show j + (t + 1) = j + 1 + t by omega]⟩
    · intro h
      obtain ⟨t, ht, rfl⟩ := h
      cases t with
      | zero =>
        rw [Nat.add_zero]
        exact List.mem_cons_self _ _
      | succ t =>
        refine List.mem_cons_of_mem _ ((ih (j + 1) _).mpr ⟨t, by omega, ?_⟩)
        rw [show j + (t + 1) = j + 1 + t by omega]

theorem validateEvts_concat (s : Nat) :
    ∀ (n j : Nat), validateEvts s j (n + 1) = validateEvts s j n ++ [.validate s (j + n)] := by
  intro n
  induction n with
  | zero =>
    intro j
    simp [validateEvts]
  | succ n ih =>
    intro j
    show Event.validate s j :: validateEvts s (j + 1) (n + 1) = _
    rw [ih (j + 1)]
    simp [validateEvts, show j + 1 + n = j + (n + 1) by omega]

theorem runValidators_none (s : Nat) (r : TurnResult) :
    ∀ (vs : List (TurnResult → Option String)) (j : Nat),
    (runValidators s r vs j).2 = none →
    (runValidators s r vs j).1 = validateEvts s j vs.length := by
  intro vs
  induction vs with
  | nil =>
    intro j _
    rfl
  | cons v vs ih =>
    intro j h
    cases hv : v r with
    | some msg =>
      rw [show runValidators s r (v :: vs) j =
        ([.validate s j], some (j, msg)) from by simp [runValidators, hv]] at h
      cases h
    | none =>
      cases hrec : runValidators s r vs (j + 1) with
      | mk evs res =>
        have heq : runValidators s r (v :: vs) j = (.validate s j :: evs, res) := by
          simp [runValidators, hv, hrec]
        rw [heq] at h ⊢
        have := ih (j + 1)
        rw [hrec] at this
        simpa [validateEvts] using this h

theorem runValidators_some (s : Nat) (r : TurnResult) :
    ∀ (vs : List (TurnResult → Option String)) (j k : Nat) (msg : String),
    (runValidators s r vs j).2 = some (k, msg) →
    j ≤ k ∧ k - j < vs.length ∧
    (runValidators s r vs j).1 = validateEvts s j (k - j + 1) := by
  intro vs
  induction vs with
  | nil =>
    intro j k msg h
    cases h
  | cons v vs ih =>
    intro j k msg h
    cases hv : v r with
    | some m =>
      have heq : runValidators s r (v :: vs) j = ([.validate s j], some (j, m)) := by
        simp [runValidators, hv]
      rw [heq] at h ⊢
      have hk : j = k ∧ m = msg := by
        cases h
        exact ⟨rfl, rfl⟩
      obtain ⟨rfl, rfl⟩ := hk
      refine ⟨Nat.le_refl j, by simp, ?_⟩
      simp [validateEvts, Nat.sub_self]
    | none =>
      cases hrec : runValidators s r vs (j + 1) with
      | mk evs res =>
        have heq : runValidators s r (v :: vs) j = (.validate s j :: evs, res) := by
          simp [runValidators, hv, hrec]
        rw [heq] at h ⊢
        have hres : res = some (k, msg) := h
        have := ih (j + 1) k msg (by rw [hrec]; exact hres)
        rw [hrec] at this
        obtain ⟨hjk, hlt, hevs⟩ := this
        refine ⟨by omega, by simp only [List.length_cons]; omega, ?_⟩
        obtain ⟨d, hd⟩ : ∃ d, k - j = d + 1 := ⟨k - j - 1, by omega⟩
        rw [hd]
        have hevs2 : evs = validateEvts s (j + 1) (k - (j + 1) + 1) := hevs
        show Event.validate s j :: evs = Event.validate s j :: validateEvts s (j + 1) (d + 1)
        rw [hevs2, show k - (j + 1) = d by omega]

theorem scenarioBlocks_nil : ∀ (idx d : Nat), scenarioBlocks [] idx d = [] := by
  intro idx d
  cases d with
  | zero => rfl
  | succ d => rfl

theorem scenarioBlocks_mem_invoke :
    ∀ (steps : List StepSpec) (idx d m : Nat),
    Event.invokeStep m ∈ scenarioBlocks steps idx d → idx ≤ m ∧ m < idx + d := by
  intro steps
  induction steps with
  | nil =>
    intro idx d m h
    rw [scenarioBlocks_nil] at h
    cases h
  | cons s rest ih =>
    intro idx d m h
    cases d with
    | zero => cases h
    | succ d =>
      rcases List.mem_append.mp h with h1 | h2
      · rcases List.mem_cons.mp h1 with heq | h3
        · have : m = idx := by
            cases heq
            rfl
          omega
        · obtain ⟨t, _, habs⟩ := (validateEvts_mem idx _ 0 _).mp h3
          cases habs
      · have := ih (idx + 1) d m h2
        omega

theorem scenarioBlocks_mem_validate :
    ∀ (steps : List StepSpec) (idx d m j : Nat),
    idx ≤ m → m < idx + d → d ≤ steps.length →
    j < validatorCount steps (m - idx) →
    Event.validate m j ∈ scenarioBlocks steps idx d := by
  intro steps
  induction steps with
  | nil =>
    intro idx d m j h1 h2 h3 _
    simp at h3
    omega
  | cons s rest ih =>
    intro idx d m j h1 h2 h3 h4
    cases d with
    | zero => omega
    | succ d =>
      by_cases hm : m = idx
      · subst hm
        refine List.mem_append.mpr (Or.inl (List.mem_cons_of_mem _ ?_))
        refine (validateEvts_mem m s.validators.length 0 _).mpr ⟨j, ?_, by rw [Nat.zero_add]⟩
        have : validatorCount (s :: rest) (m - m) = s.validators.length := by
          rw [Nat.sub_self]
          rfl
        rw [this] at h4
        exact h4
      · refine List.mem_append.mpr (Or.inr ?_)
        refine ih (idx + 1) d m j (by omega) (by omega) (by simpa using h3) ?_
        obtain ⟨t, ht⟩ : ∃ t, m - idx = t + 1 := ⟨m - idx - 1, by omega⟩
        rw [ht] at h4
        rw [show m - (idx + 1) = t by omega]
        exact h4

theorem scenarioBlocks_split :
    ∀ (a : Nat) (steps : List StepSpec) (idx b : Nat),
    scenarioBlocks steps idx (a + b) =
      scenarioBlocks steps idx a ++ scenarioBlocks (steps.drop a) (idx + a) b := by
  intro a
  induction a with
  | zero =>
    intro steps idx b
    simp [scenarioBlocks, Nat.zero_add]
  | succ a ih =>
    intro steps idx b
    cases steps with
    | nil =>
      rw [scenarioBlocks_nil, scenarioBlocks_nil]
      rw [show List.drop (a + 1) ([] : List StepSpec) = [] from List.drop_nil]
      rw [scenarioBlocks_nil]
      rfl
    | cons s rest =>
      rw [show a + 1 + b = (a + b) + 1 by omega]
      show (Event.invokeStep idx :: validateEvts idx 0 s.validators.length)
          ++ scenarioBlocks rest (idx + 1) (a + b) = _
      rw [ih rest (idx + 1) b]
      rw [show (s :: rest).drop (a + 1) = rest.drop a from rfl]
      rw [show idx + (a + 1) = idx + 1 + a by omega]
      show _ = (Event.invokeStep idx :: validateEvts idx 0 s.validators.length
          ++ scenarioBlocks rest (idx + 1) a) ++ scenarioBlocks (rest.drop a) (idx + 1 + a) b
      simp [List.append_assoc]

/-- Closed form of a failing scenario run: the trace consists of the full
blocks of the steps before the failing one, then the failing step's
invocation and its validator evaluations up to and including the failing
validator. -/
theorem runScenarioAux_fail_form {σ : Type} (invoke : Nat → σ → TurnResult × σ) :
    ∀ (steps : List StepSpec) (idx : Nat) (st : σ) (N k : Nat) (msg : String),
    (runScenarioAux invoke idx st steps).2 = some (N, k, msg) →
    idx ≤ N ∧ N - idx < steps.length ∧ k < validatorCount steps (N - idx) ∧
    (runScenarioAux invoke idx st steps).1 =
      scenarioBlocks steps idx (N - idx) ++ .invokeStep N :: validateEvts N 0 (k + 1) := by
  intro steps
  induction steps with
  | nil =>
    intro idx st N k msg h
    cases h
  | cons step rest ih =>
    intro idx st N k msg h
    cases hvr : runValidators idx (invoke idx st).1 step.validators 0 with
    | mk evs res =>
      cases res with
      | some jm =>
        have heq : runScenarioAux invoke idx st (step :: rest) =
            (.invokeStep idx :: evs, some (idx, jm.1, jm.2)) := by
          simp [runScenarioAux, hvr]
        rw [heq] at h ⊢
        have hNk : N = idx ∧ jm.1 = k ∧ jm.2 = msg := by
          cases h
          exact ⟨rfl, rfl, rfl⟩
        obtain ⟨rfl, hk, hmsg⟩ := hNk
        have hsome := runValidators_some N (invoke N st).1 step.validators 0 k msg
          (by rw [hvr]; show some jm = some (k, msg)
              rw [Option.some.injEq, Prod.ext_iff]; exact ⟨hk, hmsg⟩)
        rw [hvr] at hsome
        obtain ⟨_, hlt, hevs⟩ := hsome
        have hevs2 : evs = validateEvts N 0 (k + 1) := by
          have h2 : evs = validateEvts N 0 (k - 0 + 1) := hevs
          simpa using h2
        refine ⟨Nat.le_refl N, ?_, ?_, ?_⟩
        · simp
        · rw [show validatorCount (step :: rest) (N - N) = step.validators.length from by
            rw [Nat.sub_self]; rfl]
          simpa using hlt
        · rw [Nat.sub_self]
          show Event.invokeStep N :: evs = [] ++ _
          rw [hevs2]
          rfl
      | none =>
        cases htail : runScenarioAux invoke (idx + 1) (invoke idx st).2 rest with
        | mk tevs tres =>
          have heq : runScenarioAux invoke idx st (step :: rest) =
              (.invokeStep idx :: (evs ++ tevs), tres) := by
            simp [runScenarioAux, hvr, htail]
          rw [heq] at h ⊢
          have htres : tres = some (N, k, msg) := h
          have iha := ih (idx + 1) (invoke idx st).2 N k msg (by rw [htail]; exact htres)
          rw [htail] at iha
          obtain ⟨hle, hlen, hvc, htr⟩ := iha
          have hevs2 : evs = validateEvts idx 0 step.validators.length := by
            have hn := runValidators_none idx (invoke idx st).1 step.validators 0
              (by rw [hvr])
            rw [hvr] at hn
            exact hn
          obtain ⟨t, ht⟩ : ∃ t, N - idx = t + 1 := ⟨N - idx - 1, by omega⟩
          have hrel : N - (idx + 1) = t := by omega
          refine ⟨by omega, ?_, ?_, ?_⟩
          · simp only [List.length_cons]
            omega
          · rw [ht]
            rw [show validatorCount (step :: rest) (t + 1) = validatorCount rest t from rfl]
            rw [hrel] at hvc
            exact hvc
          · rw [ht]
            show Event.invokeStep idx :: (evs ++ tevs) = _
            rw [hevs2]
            have htr2 : tevs = scenarioBlocks rest (idx + 1) (N - (idx + 1))
                ++ .invokeStep N :: validateEvts N 0 (k + 1) := htr
            rw [htr2, hrel]
            show Event.invokeStep idx :: (validateEvts idx 0 step.validators.length
                ++ (scenarioBlocks rest (idx + 1) t
                    ++ Event.invokeStep N :: validateEvts N 0 (k + 1))) =
              ((Event.invokeStep idx :: validateEvts idx 0 step.validators.length)
                ++ scenarioBlocks rest (idx + 1) t)
                ++ Event.invokeStep N :: validateEvts N 0 (k + 1)
            simp [List.append_assoc]

/-- If a list decomposes as `u ++ w` with `a` inside `u` and `b` outside
`u`, then in any decomposition `t1 ++ b :: t2` of the same list, `a`
already occurs in `t1`. -/
theorem mem_left_of_split {α : Type} (xs u w t1 t2 : List α) (a b : α)
    (hx : xs = u ++ w) (hs : xs = t1 ++ b :: t2) (ha : a ∈ u) (hb : b ∉ u) : a ∈ t1 := by
  by_cases hlen : t1.length < u.length
  · exfalso
    have h1 : xs[t1.length]? = some b := by
      rw [hs, List.getElem?_append_right (Nat.le_refl t1.length), Nat.sub_self]
      simp
    have h2 : xs[t1.length]? = u[t1.length]? := by
      rw [hx]
      exact List.getElem?_append_left hlen
    rw [h2] at h1
    exact hb (List.getElem?_mem h1)
  · push_neg at hlen
    have hu : u <+: xs := ⟨w, hx.symm⟩
    have ht : t1 <+: xs := ⟨b :: t2, hs.symm⟩
    exact (List.prefix_of_prefix_length_le hu ht hlen).subset ha

/-- C6: in every multi-turn scenario (an ordered sequence of steps whose
validators run after the step's agent invocation, all sharing the
threaded conversation state), if the run fails at step `N`, validator
`k`, then: no step after `N` is ever invoked; the last event of the run
is the failing validator evaluation of step `N`, so the surfaced failure
is step `N`'s; and a step `m + 1` is never invoked before every validator
of step `m` has been evaluated. -/
theorem scenario_aborts_on_first_validator_failure {σ : Type}
    (invoke : Nat → σ → TurnResult × σ) (st0 : σ) (steps : List StepSpec)
    (N k : Nat) (msg : String)
    (hfail : (runScenario invoke st0 steps).2 = some (N, k, msg)) :
    (∀ m, N < m → Event.invokeStep m ∉ (runScenario invoke st0 steps).1)
    ∧ (runScenario invoke st0 steps).1.getLast? = some (.validate N k)
    ∧ (∀ m (t1 t2 : List Event),
        (runScenario invoke st0 steps).1 = t1 ++ .invokeStep (m + 1) :: t2 →
        ∀ j, j < validatorCount steps m → Event.validate m j ∈ t1) := by
  obtain ⟨_, hlen, hvc, htr⟩ := runScenarioAux_fail_form invoke steps 0 st0 N k msg hfail
  rw [Nat.sub_zero] at hlen hvc htr
  have htr2 : (runScenario invoke st0 steps).1 =
      scenarioBlocks steps 0 N ++ Event.invokeStep N :: validateEvts N 0 (k + 1) := htr
  have hA : ∀ m, N < m → Event.invokeStep m ∉ (runScenario invoke st0 steps).1 := by
    intro m hm hmem
    rw [htr2] at hmem
    rcases List.mem_append.mp hmem with h1 | h2
    · have := scenarioBlocks_mem_invoke steps 0 N m h1
      omega
    · rcases List.mem_cons.mp h2 with heq | h3
      · have : m = N := by
          cases heq
          rfl
        omega
      · obtain ⟨t, _, habs⟩ := (validateEvts_mem N (k + 1) 0 _).mp h3
        cases habs
  refine ⟨hA, ?_, ?_⟩
  · rw [htr2, validateEvts_concat]
    rw [show Event.invokeStep N ::
          (validateEvts N 0 k ++ [Event.validate N (0 + k)]) =
        (Event.invokeStep N :: validateEvts N 0 k) ++ [Event.validate N (0 + k)] from rfl]
    rw [← List.append_assoc, List.getLast?_concat, Nat.zero_add]
  · intro m t1 t2 hsplit j hj
    have hmem : Event.invokeStep (m + 1) ∈ (runScenario invoke st0 steps).1 := by
      rw [hsplit]
      exact List.mem_append.mpr (Or.inr (List.mem_cons_self _ _))
    have hmle : m + 1 ≤ N := by
      by_contra hgt
      push_neg at hgt
      exact hA (m + 1) hgt hmem
    have hsb := scenarioBlocks_split (m + 1) steps 0 (N - (m + 1))
    rw [show m + 1 + (N - (m + 1)) = N from by omega] at hsb
    have hxs : (runScenario invoke st0 steps).1 =
        scenarioBlocks steps 0 (m + 1)
          ++ (scenarioBlocks (steps.drop (m + 1)) (0 + (m + 1)) (N - (m + 1))
              ++ Event.invokeStep N :: validateEvts N 0 (k + 1)) := by
      rw [htr2, hsb, List.append_assoc]
    refine mem_left_of_split (runScenario invoke st0 steps).1
      (scenarioBlocks steps 0 (m + 1)) _ t1 t2 _ _ hxs hsplit ?_ ?_
    · refine scenarioBlocks_mem_validate steps 0 (m + 1) m j (Nat.zero_le m) (by omega)
        (by omega) ?_
      rw [Nat.sub_zero]
      exact hj
    · intro hmem2
      have := scenarioBlocks_mem_invoke steps 0 (m + 1) (m + 1) hmem2
      omega

/-- Witness for C6, mirroring the spec's scenario example: in a 3-step
scenario whose second step's validator fails, step 3 is never invoked and
the run ends at step 2's failing validator (indices 0-based). -/
theorem scenario_aborts_on_first_validator_failure_witness :
    Event.invokeStep 2 ∉
      (runScenario (fun _ _ => (⟨[], "resp", true⟩, ())) ()
        [⟨[fun _ => none]⟩, ⟨[fun _ => some "boom"]⟩, ⟨[fun _ => none]⟩]).1
    ∧ (runScenario (fun _ _ => (⟨[], "resp", true⟩, ())) ()
        [⟨[fun _ => none]⟩, ⟨[fun _ => some "boom"]⟩, ⟨[fun _ => none]⟩]).1.getLast? =
      some (.validate 1 0) := by
  have h := scenario_aborts_on_first_validator_failure
    (fun _ _ => (⟨[], "resp", true⟩, ())) ()
    [⟨[fun _ => none]⟩, ⟨[fun _ => some "boom"]⟩, ⟨[fun _ => none]⟩]
    1 0 "boom" rfl
  exact ⟨h.1 2 (by omega), h.2.1⟩

end ExcelMcpHarness
